import Mathlib

/-!
Shallow embedding of `migrator.go` from the `pgmigrate` repository.

The Go file builds a migration catalog from the `*.sql` files of a
filesystem (`newMigrator`, with strict/loose filename validation), and
applies pending patch scripts to a database inside transactions
(`Current`, `Apply`, `Up`, `initializeSchemaVersion`).

Modelling choices:
* A filesystem (`fs.FS`) is an association list from filenames to file
  contents; `fs.Glob(fsys, "*.sql")` keeps the names that end in `.sql`
  and contain no path separator.
* The database is a `DBState`: the version table is absent, present and
  empty, or present with its single row's `version` value; `executed`
  records the script bodies whose execution has been committed, in order.
* `pgx.BeginFunc` commits on success and rolls back on error, so every
  transactional operation returns `Res`: the resulting state on success,
  or an error message together with the unchanged (rolled-back) state.
* `tx.Exec` can be rejected by the database; the environment `Env`
  says which SQL texts fail.  `QueryRow ... .Scan` fails exactly when the
  queried table is absent or has no row.
* `Migrator.Apply` additionally returns the list of `Event`s it issued,
  in order, so that statement ordering relative to the transaction
  boundaries is part of the model.
-/

namespace PgMigrate

/-- One patch script, as in the Go `Migration` struct: the version parsed
from the filename and the exact filename used to re-fetch the bytes. -/
structure Migration where
  Version : Nat
  Filename : String
deriving Repr, DecidableEq

/-- The Go `Migrator` struct: version-table name, the filesystem the
patches were found in, and the sorted up/down sequences. -/
structure Migrator where
  VersionTable : String
  Filesystem : List (String × String)
  MigrateUp : List Migration
  MigrateDown : List Migration
deriving Repr, DecidableEq

/-- `const DefaultVersionTable = "schema_version"`. -/
def DefaultVersionTable : String := "schema_version"

/-- Decimal value of a digit string, as `strconv.Atoi` computes it for a
string of digits (the only strings the caller feeds it). -/
def digitsToNat (l : List Char) : Nat :=
  l.foldl (fun acc c => acc * 10 + (c.toNat - 48)) 0

/-- The Go regular expression `^([0-9]+)_(.*)\.(up|down)\.sql$` applied to
a filename: a non-empty digit prefix, an underscore, an arbitrary
newline-free name, and a `.up.sql` or `.down.sql` tail.  Returns the
parsed version and whether the script is an up script, or `none` when the
filename does not match. -/
def parseFilename (filename : String) : Option (Nat × Bool) :=
  let cs := filename.toList
  let digits := cs.takeWhile Char.isDigit
  match cs.dropWhile Char.isDigit with
  | '_' :: rest =>
    if digits.isEmpty then none
    else if List.isSuffixOf ".up.sql".toList rest then
      if (rest.take (rest.length - 7)).contains '\n' then none
      else some (digitsToNat digits, true)
    else if List.isSuffixOf ".down.sql".toList rest then
      if (rest.take (rest.length - 9)).contains '\n' then none
      else some (digitsToNat digits, false)
    else none
  | _ => none

/-- `fs.Glob(filesystem, "*.sql")`: the filenames of the store that end in
`.sql` and name a root-directory entry (no path separator). -/
def globSql (fsys : List (String × String)) : List String :=
  (fsys.map Prod.fst).filter fun n =>
    List.isSuffixOf ".sql".toList n.toList && !(n.toList.contains '/')

/-- The classification loop of `newMigrator` (migrator.go lines 63-84):
walk the file list in order, fail on the first non-matching name in
strict mode and skip it in loose mode, and put each matching name into
the up or the down bucket in file order. -/
def classify (strict : Bool) : List String → Except String (List Migration × List Migration)
  | [] => Except.ok ([], [])
  | f :: rest =>
    match parseFilename f with
    | none =>
      if strict then Except.error ("invalid filename: " ++ f)
      else classify strict rest
    | some (v, up) =>
      match classify strict rest with
      | Except.error e => Except.error e
      | Except.ok (ups, downs) =>
        if up then Except.ok (Migration.mk v f :: ups, downs)
        else Except.ok (ups, Migration.mk v f :: downs)

/-- `sort.Slice(..., func(i, j) { return ...Version < ...Version })`:
sort a bucket ascending by version. -/
def sortByVersion (l : List Migration) : List Migration :=
  l.insertionSort (fun a b => a.Version < b.Version)

/-- The contiguity loop `for i, v := range ... { if v.Version != i+1 ... }`
on an already sorted bucket, started at `k = 1`. -/
def checkSeq : Nat → List Migration → Bool
  | _, [] => true
  | k, v :: rest => (v.Version == k) && checkSeq (k + 1) rest

/-- Go's `strings.TrimSuffix`: drop the suffix when present, otherwise
return the string unchanged. -/
def trimSuffix (s suff : String) : String :=
  if List.isSuffixOf suff.toList s.toList then
    String.mk (s.toList.take (s.toList.length - suff.toList.length))
  else s

/-- The pairing loop of `newMigrator` (lines 107-111): the i-th up file
and the i-th down file must have the same base name once the direction
tag and extension are trimmed.  Both lists have equal length when this
runs. -/
def checkPairs (ups downs : List Migration) : Bool :=
  (ups.zip downs).all fun p =>
    trimSuffix p.1.Filename ".up.sql" == trimSuffix p.2.Filename ".down.sql"

/-- Body of `newMigrator` after `fs.Glob`, taking the globbed file list
explicitly: classify, sort the up bucket, check its contiguity, and when
any down script exists check count equality, down contiguity and
pairwise base names, in the source's order. -/
def buildFrom (fsys : List (String × String)) (files : List String) (strict : Bool) :
    Except String Migrator :=
  match classify strict files with
  | Except.error e => Except.error e
  | Except.ok (ups, downs) =>
    let sortedUp := sortByVersion ups
    if checkSeq 1 sortedUp then
      if downs.isEmpty then
        Except.ok (Migrator.mk DefaultVersionTable fsys sortedUp [])
      else
        let sortedDown := sortByVersion downs
        if sortedUp.length == sortedDown.length then
          if checkSeq 1 sortedDown then
            if checkPairs sortedUp sortedDown then
              Except.ok (Migrator.mk DefaultVersionTable fsys sortedUp sortedDown)
            else Except.error "up/down mismatch"
          else Except.error "unexpected sequence"
        else Except.error "up scripts vs down scripts"
    else Except.error "unexpected sequence"

/-- `newMigrator(filesystem, strict)` (migrator.go line 51). -/
def newMigrator (fsys : List (String × String)) (strict : Bool) : Except String Migrator :=
  buildFrom fsys (globSql fsys) strict

/-- `New` — strict construction. -/
def New (fsys : List (String × String)) : Except String Migrator :=
  newMigrator fsys true

/-- `NewLoose` — loose construction, tolerating invalidly named files. -/
def NewLoose (fsys : List (String × String)) : Except String Migrator :=
  newMigrator fsys false

/-- `Migrator.Latest` (line 116): version of the last entry of the sorted
up sequence, or 0 when there is none. -/
def Migrator.Latest (m : Migrator) : Nat :=
  match m.MigrateUp.getLast? with
  | none => 0
  | some v => v.Version

/-! ### Database model -/

/-- State of the target database: the version table is absent (`none`),
present with zero rows (`some none`), or present with its single row's
version value (`some (some v)` — the `id = 1` constraint allows at most
one row).  `executed` lists the script bodies whose execution has been
committed, in order. -/
structure DBState where
  table : Option (Option Nat)
  executed : List String
deriving Repr, DecidableEq

/-- The database side of `tx.Exec`: which SQL texts the database
rejects.  Statements not in this set succeed. -/
structure Env where
  execFails : String → Bool

/-- Result of a transactional operation: `pgx.BeginFunc` commits on
success and rolls back on error, so both constructors carry the database
state after the call — on `err` it is the state from before the failed
transaction. -/
inductive Res (α : Type) where
  | ok : α → DBState → Res α
  | err : String → DBState → Res α
deriving Repr, DecidableEq

/-- The `CREATE TABLE IF NOT EXISTS ...` statement of
`initializeSchemaVersion` (line 190). -/
def createTableSQL (m : Migrator) : String :=
  "CREATE TABLE IF NOT EXISTS " ++ m.VersionTable ++
    " (id INTEGER PRIMARY KEY CONSTRAINT one_version CHECK(id = 1), version INTEGER NOT NULL)"

/-- The `INSERT INTO ... (id, version) VALUES (1, 0)` statement
(line 203). -/
def insertVersionSQL (m : Migrator) : String :=
  "INSERT INTO " ++ m.VersionTable ++ " (id, version) VALUES (1, 0)"

/-- The `update ... set version = $1` statement of `Apply` (line 153). -/
def updateVersionSQL (m : Migrator) : String :=
  "update " ++ m.VersionTable ++ " set version = $1"

/-- Error text standing for whatever the database reports for a rejected
statement. -/
def execErrMsg (sql : String) : String := "exec failed: " ++ sql

/-- `initializeSchemaVersion` (line 188): in one transaction, create the
version table if absent, count its rows, and insert the single `(1, 0)`
row only when the count is zero.  Any statement failure rolls the
transaction back and is wrapped with the table name. -/
def initializeSchemaVersion (m : Migrator) (env : Env) (s : DBState) : Res Unit :=
  if env.execFails (createTableSQL m) then
    Res.err ("while creating version table " ++ m.VersionTable ++ ": " ++
      execErrMsg (createTableSQL m)) s
  else
    match s.table.getD none with
    | some v => Res.ok () { s with table := some (some v) }
    | none =>
      if env.execFails (insertVersionSQL m) then
        Res.err ("while creating version table " ++ m.VersionTable ++ ": " ++
          execErrMsg (insertVersionSQL m)) s
      else Res.ok () { s with table := some (some 0) }

/-- `Migrator.Current` (line 124): initialize the version table, then in
a second transaction read the single row's version. -/
def Migrator.Current (m : Migrator) (env : Env) (s : DBState) : Res Nat :=
  match initializeSchemaVersion m env s with
  | Res.err e s1 => Res.err e s1
  | Res.ok _ s1 =>
    match s1.table with
    | some (some v) => Res.ok v s1
    | _ => Res.err "failed to retrieve current schema version: no rows" s1

/-- `fs.ReadFile(m.Filesystem, filename)`: the bytes stored under the
filename, or a read error when the store has no such file. -/
def lookupFile (fsys : List (String × String)) (name : String) : Option String :=
  match fsys.find? (fun p => p.1 == name) with
  | none => none
  | some p => some p.2

/-- Database operations issued by one `Apply` call, in order.  Events
between `txBegin` and `txCommit`/`txRollback` are issued inside the
transaction. -/
inductive Event where
  | readFile : String → Event
  | txBegin : Event
  | queryVersion : Event
  | writeVersion : Nat → Event
  | execScript : String → Event
  | txCommit : Event
  | txRollback : Event
deriving Repr, DecidableEq

/-- `Migrator.Apply` (line 139): read the patch file's bytes (before any
transaction is opened), then in one transaction read the current
version, compare it with `before`, set it to `after`, and execute the
script body; commit only when every step succeeded, roll back otherwise.
Every error is wrapped with the filename.  Also returns the issued
events, in order. -/
def Migrator.Apply (m : Migrator) (env : Env) (before after : Nat) (filename : String)
    (s : DBState) : Res Unit × List Event :=
  match lookupFile m.Filesystem filename with
  | none =>
    (Res.err ("while reading patch file: " ++ filename) s, [Event.readFile filename])
  | some sql =>
    match s.table with
    | some (some current) =>
      if current ≠ before then
        (Res.err ("while applying " ++ filename ++ ": expected current version " ++
            toString before ++ ", found " ++ toString current) s,
          [Event.readFile filename, Event.txBegin, Event.queryVersion, Event.txRollback])
      else if env.execFails (updateVersionSQL m) then
        (Res.err ("while applying " ++ filename ++ ": while updating current version: " ++
            execErrMsg (updateVersionSQL m)) s,
          [Event.readFile filename, Event.txBegin, Event.queryVersion,
            Event.writeVersion after, Event.txRollback])
      else if env.execFails sql then
        (Res.err ("while applying " ++ filename ++ ": " ++ execErrMsg sql) s,
          [Event.readFile filename, Event.txBegin, Event.queryVersion,
            Event.writeVersion after, Event.execScript sql, Event.txRollback])
      else
        (Res.ok () (DBState.mk (some (some after)) (s.executed ++ [sql])),
          [Event.readFile filename, Event.txBegin, Event.queryVersion,
            Event.writeVersion after, Event.execScript sql, Event.txCommit])
    | _ =>
      (Res.err ("while applying " ++ filename ++ ": while reading current version") s,
        [Event.readFile filename, Event.txBegin, Event.queryVersion, Event.txRollback])

/-- The walk of `Migrator.Up` over the up sequence (lines 175-184):
skip entries whose version is at most `current`, otherwise apply them,
stopping at the first error and tracking the new current version. -/
def upLoop (m : Migrator) (env : Env) : List Migration → Nat → DBState → Res Unit
  | [], _, s => Res.ok () s
  | v :: rest, current, s =>
    if v.Version ≤ current then upLoop m env rest current s
    else
      match (m.Apply env current v.Version v.Filename s).fst with
      | Res.err e s1 => Res.err ("failed to apply " ++ v.Filename ++ ": " ++ e) s1
      | Res.ok _ s1 => upLoop m env rest v.Version s1

/-- `Migrator.Up` (line 170): read the current version (bootstrapping
the version table), then walk the up sequence. -/
def Migrator.Up (m : Migrator) (env : Env) (s : DBState) : Res Unit :=
  match m.Current env s with
  | Res.err e s1 => Res.err e s1
  | Res.ok current s1 => upLoop m env m.MigrateUp current s1

/-- The script bodies `upLoop` would execute from a given current
version: the stored contents of each non-skipped entry's file. -/
def pendingScripts (fsys : List (String × String)) : List Migration → Nat → List String
  | [], _ => []
  | v :: rest, current =>
    if v.Version ≤ current then pendingScripts fsys rest current
    else (lookupFile fsys v.Filename).getD "" :: pendingScripts fsys rest v.Version

/-- Whether a transactional operation succeeded. -/
def Res.isOk {α : Type} : Res α → Bool
  | Res.ok _ _ => true
  | Res.err _ _ => false

/-- Whether catalog construction succeeded. -/
def buildOk (r : Except String Migrator) : Bool :=
  match r with
  | Except.ok _ => true
  | Except.error _ => false

/-! ### Concrete fixtures used by witnesses and counterexamples -/

/-- A one-file patch store. -/
def fsA : List (String × String) := [("1_a.up.sql", "S1")]

/-- The catalog `New fsA` builds. -/
def mA : Migrator := ⟨DefaultVersionTable, fsA, [⟨1, "1_a.up.sql"⟩], []⟩

/-- A database that rejects no statement. -/
def envNone : Env := ⟨fun _ => false⟩

/-- A database that rejects exactly the script body `"S1"`. -/
def envFailS1 : Env := ⟨fun q => q == "S1"⟩

/-- A database that rejects exactly the version-row insert for the
default table. -/
def envFailInsert : Env :=
  ⟨fun q => q == "INSERT INTO schema_version (id, version) VALUES (1, 0)"⟩

/-- A fresh database: no version table, nothing executed. -/
def dbFresh : DBState := ⟨none, []⟩

/-- A database whose version table holds 0. -/
def db0 : DBState := ⟨some (some 0), []⟩

/-! ### Claims about the transactional apply protocol -/

/-- C1: if the script body of a step fails execution inside `Apply`, the
transaction rolls back: the call returns the wrapped execution error with
the database unchanged, so `Current` still answers the before-version and
neither the version bump nor the script effect is committed. -/
theorem apply_script_failure_atomic
    (m : Migrator) (env : Env) (b a : Nat) (f sql : String) (s : DBState)
    (hread : lookupFile m.Filesystem f = some sql)
    (htab : s.table = some (some b))
    (hupd : env.execFails (updateVersionSQL m) = false)
    (hexec : env.execFails sql = true)
    (hcreate : env.execFails (createTableSQL m) = false) :
    (m.Apply env b a f s).fst =
      Res.err ("while applying " ++ f ++ ": " ++ execErrMsg sql) s ∧
    m.Current env s = Res.ok b s := by
  obtain ⟨t, ex⟩ := s
  simp only [DBState.table] at htab
  subst htab
  constructor
  · simp [Migrator.Apply, hread, hupd, hexec]
  · simp [Migrator.Current, initializeSchemaVersion, hcreate]

/-- C1 witness: a concrete failing script execution. -/
theorem apply_script_failure_atomic_witness :
    lookupFile mA.Filesystem "1_a.up.sql" = some "S1" ∧
    db0.table = some (some 0) ∧
    envFailS1.execFails (updateVersionSQL mA) = false ∧
    envFailS1.execFails "S1" = true ∧
    envFailS1.execFails (createTableSQL mA) = false ∧
    (mA.Apply envFailS1 0 1 "1_a.up.sql" db0).fst =
      Res.err ("while applying " ++ "1_a.up.sql" ++ ": " ++ execErrMsg "S1") db0 ∧
    mA.Current envFailS1 db0 = Res.ok 0 db0 := by
  refine ⟨rfl, rfl, by decide, rfl, by decide, ?_, ?_⟩
  · exact (apply_script_failure_atomic mA envFailS1 0 1 "1_a.up.sql" "S1" db0
      rfl rfl (by decide) rfl (by decide)).1
  · exact (apply_script_failure_atomic mA envFailS1 0 1 "1_a.up.sql" "S1" db0
      rfl rfl (by decide) rfl (by decide)).2

/-- C4: inside `Apply`'s transaction the version row is read first; when
it differs from the expected before-value the whole transaction aborts
with a conflict error and no write is issued (version row and schema
unchanged, no script run); when it matches, the after-value is written,
and if the database accepts everything the call commits the bump and the
script as a unit. -/
theorem apply_cas_guard
    (m : Migrator) (env : Env) (b a cur : Nat) (f sql : String) (s : DBState)
    (hread : lookupFile m.Filesystem f = some sql)
    (htab : s.table = some (some cur)) :
    (cur ≠ b →
      (m.Apply env b a f s).fst =
        Res.err ("while applying " ++ f ++ ": expected current version " ++
          toString b ++ ", found " ++ toString cur) s ∧
      (∀ x, Event.writeVersion x ∉ (m.Apply env b a f s).snd) ∧
      (∀ q, Event.execScript q ∉ (m.Apply env b a f s).snd)) ∧
    (cur = b → Event.writeVersion a ∈ (m.Apply env b a f s).snd) ∧
    (cur = b → env.execFails (updateVersionSQL m) = false → env.execFails sql = false →
      (m.Apply env b a f s).fst =
        Res.ok () (DBState.mk (some (some a)) (s.executed ++ [sql]))) := by
  refine ⟨?_, ?_, ?_⟩
  · intro hne
    simp [Migrator.Apply, hread, htab, hne]
  · intro heq
    subst heq
    by_cases hupd : env.execFails (updateVersionSQL m)
    · simp [Migrator.Apply, hread, htab, hupd]
    · by_cases hexec : env.execFails sql
      · simp [Migrator.Apply, hread, htab, hupd, hexec]
      · simp [Migrator.Apply, hread, htab, hupd, hexec]
  · intro heq hupd hexec
    subst heq
    simp [Migrator.Apply, hread, htab, hupd, hexec]

/-- C4 witness: a concrete conflict and a concrete successful CAS. -/
theorem apply_cas_guard_witness :
    lookupFile mA.Filesystem "1_a.up.sql" = some "S1" ∧
    DBState.table ⟨some (some 5), []⟩ = some (some 5) ∧
    (mA.Apply envNone 0 1 "1_a.up.sql" ⟨some (some 5), []⟩).fst =
      Res.err ("while applying " ++ "1_a.up.sql" ++ ": expected current version " ++
        toString 0 ++ ", found " ++ toString 5) ⟨some (some 5), []⟩ ∧
    (mA.Apply envNone 0 1 "1_a.up.sql" db0).fst =
      Res.ok () (DBState.mk (some (some 1)) ([] ++ ["S1"])) := by
  refine ⟨rfl, rfl, ?_, ?_⟩
  · exact ((apply_cas_guard mA envNone 0 1 5 "1_a.up.sql" "S1" ⟨some (some 5), []⟩
      rfl rfl).1 (by decide)).1
  · exact (apply_cas_guard mA envNone 0 1 0 "1_a.up.sql" "S1" db0
      rfl rfl).2.2 rfl (by decide) (by decide)

/-- C9: `Current` bootstraps the version table non-destructively: on a
fresh database it creates the table, inserts the single row with version
0 and returns 0; when the table already holds a row it leaves the row
untouched and returns its value. -/
theorem current_bootstraps
    (m : Migrator) (env : Env) (s : DBState)
    (hcreate : env.execFails (createTableSQL m) = false) :
    (s.table = none → env.execFails (insertVersionSQL m) = false →
      m.Current env s = Res.ok 0 ⟨some (some 0), s.executed⟩) ∧
    (∀ v, s.table = some (some v) → m.Current env s = Res.ok v s) := by
  obtain ⟨t, ex⟩ := s
  constructor
  · intro htab hins
    simp only [DBState.table] at htab
    subst htab
    simp [Migrator.Current, initializeSchemaVersion, hcreate, hins]
  · intro v htab
    simp only [DBState.table] at htab
    subst htab
    simp [Migrator.Current, initializeSchemaVersion, hcreate]

/-- C9 witness: bootstrap on a fresh database and a no-op read on an
already initialized one. -/
theorem current_bootstraps_witness :
    envNone.execFails (createTableSQL mA) = false ∧
    mA.Current envNone dbFresh = Res.ok 0 ⟨some (some 0), []⟩ ∧
    mA.Current envNone db0 = Res.ok 0 db0 := by
  refine ⟨by decide, ?_, ?_⟩
  · exact (current_bootstraps mA envNone dbFresh (by decide)).1 rfl (by decide)
  · exact (current_bootstraps mA envNone db0 (by decide)).2 0 rfl

/-- C10 (amended): when the insert of the single version row fails —
e.g. the `id = 1` constraint rejects the losing insert of a concurrent
first run — `initializeSchemaVersion` returns the wrapped error and the
transaction rolls back; the failure is not treated as success. -/
theorem initialize_insert_failure_errors
    (m : Migrator) (env : Env) (s : DBState)
    (htab : s.table = none)
    (hcreate : env.execFails (createTableSQL m) = false)
    (hins : env.execFails (insertVersionSQL m) = true) :
    initializeSchemaVersion m env s =
      Res.err ("while creating version table " ++ m.VersionTable ++ ": " ++
        execErrMsg (insertVersionSQL m)) s := by
  simp [initializeSchemaVersion, hcreate, htab, hins]

/-- C10 counterexample: on a fresh database whose insert of `(1, 0)` is
rejected, initialization reports an error instead of the success the
claim asserts. -/
theorem initialize_race_counterexample :
    (initializeSchemaVersion mA envFailInsert dbFresh).isOk = false ∧
    initializeSchemaVersion mA envFailInsert dbFresh =
      Res.err ("while creating version table schema_version: " ++
        "exec failed: INSERT INTO schema_version (id, version) VALUES (1, 0)") dbFresh ∧
    (mA.Current envFailInsert dbFresh).isOk = false := by
  decide

/-- C10 witness for the amended statement. -/
theorem initialize_insert_failure_errors_witness :
    dbFresh.table = none ∧
    envFailInsert.execFails (createTableSQL mA) = false ∧
    envFailInsert.execFails (insertVersionSQL mA) = true ∧
    initializeSchemaVersion mA envFailInsert dbFresh =
      Res.err ("while creating version table " ++ mA.VersionTable ++ ": " ++
        execErrMsg (insertVersionSQL mA)) dbFresh := by
  refine ⟨rfl, by decide, by decide, ?_⟩
  exact initialize_insert_failure_errors mA envFailInsert dbFresh rfl (by decide) (by decide)

/-- C8 (amended): `Apply` reads the script bytes before the transaction
is opened — the read is the first issued operation, and a read failure
returns immediately with no transaction and the database unchanged;
inside the transaction the version bump is issued before the script body
runs. -/
theorem apply_reads_before_transaction
    (m : Migrator) (env : Env) (b a : Nat) (f : String) (s : DBState) :
    (m.Apply env b a f s).snd.head? = some (Event.readFile f) ∧
    (lookupFile m.Filesystem f = none →
      (m.Apply env b a f s).snd = [Event.readFile f] ∧
      (m.Apply env b a f s).fst = Res.err ("while reading patch file: " ++ f) s) ∧
    (∀ sql, Event.execScript sql ∈ (m.Apply env b a f s).snd →
      (m.Apply env b a f s).snd.take 4 =
        [Event.readFile f, Event.txBegin, Event.queryVersion, Event.writeVersion a]) := by
  cases hl : lookupFile m.Filesystem f with
  | none => simp [Migrator.Apply, hl]
  | some sql =>
    rcases htab : s.table with _ | r
    · simp [Migrator.Apply, hl, htab]
    · rcases r with _ | cur
      · simp [Migrator.Apply, hl, htab]
      · by_cases hne : cur ≠ b
        · simp [Migrator.Apply, hl, htab, hne]
        · by_cases hupd : env.execFails (updateVersionSQL m)
          · simp [Migrator.Apply, hl, htab, hne, hupd]
          · by_cases hexec : env.execFails sql
            · simp [Migrator.Apply, hl, htab, hne, hupd, hexec]
            · simp [Migrator.Apply, hl, htab, hne, hupd, hexec]

/-- C8 witness: a concrete run whose read fails, and a concrete
successful run whose script execution is preceded by the version bump. -/
theorem apply_reads_before_transaction_witness :
    (mA.Apply envNone 0 1 "missing.sql" db0).snd = [Event.readFile "missing.sql"] ∧
    Event.execScript "S1" ∈ (mA.Apply envNone 0 1 "1_a.up.sql" db0).snd ∧
    (mA.Apply envNone 0 1 "1_a.up.sql" db0).snd.take 4 =
      [Event.readFile "1_a.up.sql", Event.txBegin, Event.queryVersion,
        Event.writeVersion 1] := by
  refine ⟨?_, by decide, ?_⟩
  · exact ((apply_reads_before_transaction mA envNone 0 1 "missing.sql" db0).2.1 rfl).1
  · exact (apply_reads_before_transaction mA envNone 0 1 "1_a.up.sql" db0).2.2
      "S1" (by decide)

/-- C8 counterexample: in a concrete successful `Apply` run the read of
the script bytes is issued strictly before the transaction begins — it
occurs only at the head of the event list, never after `txBegin` — so
the bytes are not read inside the transaction after the version bump. -/
theorem apply_read_outside_tx_counterexample :
    (mA.Apply envNone 0 1 "1_a.up.sql" db0).snd =
      [Event.readFile "1_a.up.sql", Event.txBegin, Event.queryVersion,
        Event.writeVersion 1, Event.execScript "S1", Event.txCommit] ∧
    (mA.Apply envNone 0 1 "1_a.up.sql" db0).fst =
      Res.ok () ⟨some (some 1), ["S1"]⟩ ∧
    Event.readFile "1_a.up.sql" ∉ ((mA.Apply envNone 0 1 "1_a.up.sql" db0).snd.drop 1) ∧
    Event.txBegin ∈ ((mA.Apply envNone 0 1 "1_a.up.sql" db0).snd.drop 1) := by
  decide

/-! ### Catalog construction lemmas -/

/-- The contiguity loop accepts a bucket exactly when its version column
is the literal arithmetic progression starting at its start index. -/
theorem checkSeq_iff_map (l : List Migration) :
    ∀ k, checkSeq k l = true ↔ l.map Migration.Version = List.range' k l.length := by
  induction l with
  | nil => intro k; simp [checkSeq, List.range']
  | cons v rest ih =>
    intro k
    rw [List.length_cons, List.range'_succ]
    simp only [checkSeq, Bool.and_eq_true, beq_iff_eq, List.map_cons, List.cons.injEq]
    exact and_congr Iff.rfl (ih (k + 1))

/-- Inserting into a list sorted by non-decreasing version keeps it
sorted. -/
theorem sorted_orderedInsert (x : Migration) (l : List Migration)
    (h : l.Sorted (fun a b : Migration => a.Version ≤ b.Version)) :
    (List.orderedInsert (fun a b : Migration => a.Version < b.Version) x l).Sorted
      (fun a b : Migration => a.Version ≤ b.Version) := by
  induction l with
  | nil => simp [List.orderedInsert]
  | cons y ys ih =>
    rw [List.sorted_cons] at h
    by_cases hxy : x.Version < y.Version
    · rw [List.orderedInsert, if_pos hxy, List.sorted_cons]
      refine ⟨?_, List.sorted_cons.mpr h⟩
      intro b hb
      rcases List.mem_cons.mp hb with rfl | hb
      · exact Nat.le_of_lt hxy
      · exact Nat.le_trans (Nat.le_of_lt hxy) (h.1 b hb)
    · rw [List.orderedInsert, if_neg hxy, List.sorted_cons]
      refine ⟨?_, ih h.2⟩
      intro b hb
      rcases (List.mem_orderedInsert _).mp hb with rfl | hb
      · exact Nat.le_of_not_lt hxy
      · exact h.1 b hb

/-- `sortByVersion` produces a list sorted by non-decreasing version. -/
theorem sorted_sortByVersion (l : List Migration) :
    (sortByVersion l).Sorted (fun a b : Migration => a.Version ≤ b.Version) := by
  induction l with
  | nil => simp [sortByVersion, List.insertionSort]
  | cons x xs ih => exact sorted_orderedInsert x _ ih

/-- `range'` is sorted. -/
theorem sorted_range' : ∀ (n s : Nat), (List.range' s n).Sorted (· ≤ ·) := by
  intro n
  induction n with
  | zero => intro s; simp [List.range']
  | succ n ih =>
    intro s
    rw [List.range'_succ, List.sorted_cons]
    refine ⟨?_, ih (s + 1)⟩
    intro b hb
    have := (List.mem_range'_1.mp hb).1
    omega

/-- Sorting a bucket whose versions are a permutation of `1..n` yields
the version column `1..n` literally. -/
theorem sortByVersion_map_of_perm (l : List Migration) (n : Nat)
    (h : (l.map Migration.Version).Perm (List.range' 1 n)) :
    (sortByVersion l).map Migration.Version = List.range' 1 n := by
  refine List.eq_of_perm_of_sorted (r := (· ≤ ·)) ?_ ?_ (sorted_range' n 1)
  · exact ((List.perm_insertionSort _ l).map Migration.Version).trans h
  · exact List.pairwise_map.mpr (sorted_sortByVersion l)

/-- The last version of a bucket whose version column is
`range' k (length)`. -/
theorem getLast?_version_of_map (l : List Migration) :
    ∀ k, l.map Migration.Version = List.range' k l.length → l ≠ [] →
      l.getLast?.map Migration.Version = some (k + l.length - 1) := by
  induction l with
  | nil => intro k _ hne; exact absurd rfl hne
  | cons v rest ih =>
    intro k h _
    cases rest with
    | nil =>
      rw [List.map_cons, List.map_nil, List.length_cons, List.length_nil,
        List.range'_succ] at h
      injection h with h1 _
      simp [List.getLast?, h1]
    | cons w ws =>
      rw [List.getLast?_cons_cons]
      rw [List.map_cons, List.length_cons, List.range'_succ] at h
      injection h with h1 h2
      have hrec := ih (k + 1) h2 (by simp)
      rw [hrec]
      congr 1
      simp only [List.length_cons]
      omega

/-- `Latest` of a migrator whose up sequence is dense from 1 is the
length of that sequence. -/
theorem Latest_of_dense (m : Migrator)
    (h : m.MigrateUp.map Migration.Version = List.range' 1 m.MigrateUp.length) :
    m.Latest = m.MigrateUp.length := by
  cases hl : m.MigrateUp with
  | nil => simp [Migrator.Latest, hl]
  | cons v rest =>
    rw [hl] at h
    have := getLast?_version_of_map (v :: rest) 1 h (by simp)
    rw [Migrator.Latest, hl]
    cases hg : (v :: rest).getLast? with
    | none => rw [hg] at this; simp at this
    | some u =>
      rw [hg] at this
      simp only [Option.map_some'] at this
      have hu : u.Version = 1 + (v :: rest).length - 1 := Option.some.inj this
      simp only [hu, List.length_cons]
      omega

/-- Inversion of a successful catalog build: every check of
`newMigrator` passed and the result's fields are the sorted buckets. -/
theorem buildFrom_ok_inv (fsys : List (String × String)) (files : List String)
    (strict : Bool) (m : Migrator)
    (h : buildFrom fsys files strict = Except.ok m) :
    ∃ ups downs, classify strict files = Except.ok (ups, downs) ∧
      m.VersionTable = DefaultVersionTable ∧
      m.Filesystem = fsys ∧
      m.MigrateUp = sortByVersion ups ∧
      checkSeq 1 m.MigrateUp = true ∧
      ((downs = [] ∧ m.MigrateDown = []) ∨
        (m.MigrateDown = sortByVersion downs ∧
          m.MigrateUp.length = m.MigrateDown.length ∧
          checkSeq 1 m.MigrateDown = true ∧
          checkPairs m.MigrateUp m.MigrateDown = true)) := by
  cases hc : classify strict files with
  | error e => rw [buildFrom, hc] at h; exact absurd h (by simp)
  | ok p =>
    obtain ⟨ups, downs⟩ := p
    refine ⟨ups, downs, rfl, ?_⟩
    rw [buildFrom, hc] at h
    dsimp only at h
    by_cases h1 : checkSeq 1 (sortByVersion ups)
    · rw [if_pos h1] at h
      by_cases h2 : downs.isEmpty
      · rw [if_pos h2] at h
        have hm := (Except.ok.inj h).symm
        subst hm
        exact ⟨rfl, rfl, rfl, h1, Or.inl ⟨List.isEmpty_iff.mp h2, rfl⟩⟩
      · rw [if_neg h2] at h
        by_cases h3 : ((sortByVersion ups).length == (sortByVersion downs).length) = true
        · rw [if_pos h3] at h
          by_cases h4 : checkSeq 1 (sortByVersion downs)
          · rw [if_pos h4] at h
            by_cases h5 : checkPairs (sortByVersion ups) (sortByVersion downs)
            · rw [if_pos h5] at h
              have hm := (Except.ok.inj h).symm
              subst hm
              refine ⟨rfl, rfl, rfl, h1, Or.inr ⟨rfl, ?_, h4, h5⟩⟩
              simpa using h3
            · rw [if_neg h5] at h; exact absurd h (by simp)
          · rw [if_neg h4] at h; exact absurd h (by simp)
        · rw [if_neg h3] at h; exact absurd h (by simp)
    · rw [if_neg h1] at h; exact absurd h (by simp)

/-! ### Claims about catalog construction -/

/-- C3: whenever the classified up bucket's versions are not exactly the
multiset `{1, ..., N}` — a gap, a start above 1, or a duplicate —
construction fails and no catalog is returned. -/
theorem build_rejects_nondense
    (fsys : List (String × String)) (strict : Bool) (ups downs : List Migration)
    (hc : classify strict (globSql fsys) = Except.ok (ups, downs))
    (hnd : ¬ (ups.map Migration.Version).Perm (List.range' 1 ups.length)) :
    buildOk (newMigrator fsys strict) = false := by
  cases hb : newMigrator fsys strict with
  | error e => simp [buildOk]
  | ok m =>
    exfalso
    obtain ⟨ups', downs', hc', _, _, hup, hseq, _⟩ := buildFrom_ok_inv fsys _ strict m hb
    rw [hc] at hc'
    injection hc' with hpair
    injection hpair with hu hd
    subst hu
    subst hd
    apply hnd
    have hmap := (checkSeq_iff_map m.MigrateUp 1).mp hseq
    rw [hup] at hmap
    have hlen : (sortByVersion ups).length = ups.length :=
      List.length_insertionSort _ ups
    rw [hlen] at hmap
    have hp : (ups.map Migration.Version).Perm
        ((sortByVersion ups).map Migration.Version) :=
      ((List.perm_insertionSort _ ups).map Migration.Version).symm
    rw [hmap] at hp
    exact hp

/-- C3 witness: the gap `1, 2, 4` is rejected. -/
theorem build_rejects_nondense_witness :
    classify true (globSql [("1_a.up.sql", "A"), ("2_b.up.sql", "B"), ("4_d.up.sql", "D")]) =
      Except.ok ([⟨1, "1_a.up.sql"⟩, ⟨2, "2_b.up.sql"⟩, ⟨4, "4_d.up.sql"⟩], []) ∧
    ¬ (([⟨1, "1_a.up.sql"⟩, ⟨2, "2_b.up.sql"⟩,
          (⟨4, "4_d.up.sql"⟩ : Migration)].map Migration.Version).Perm
        (List.range' 1 3)) ∧
    buildOk (newMigrator [("1_a.up.sql", "A"), ("2_b.up.sql", "B"), ("4_d.up.sql", "D")] true)
      = false := by
  refine ⟨rfl, by decide, ?_⟩
  exact build_rejects_nondense _ true _ _ rfl (by decide)

/-- C5: a patch set that classifies into up scripts only, with versions a
permutation of `1..N`, builds successfully and `Latest` answers `N`; and
a catalog without up migrations has `Latest = 0`. -/
theorem build_dense_latest
    (fsys : List (String × String)) (strict : Bool) (ups : List Migration)
    (hc : classify strict (globSql fsys) = Except.ok (ups, []))
    (hperm : (ups.map Migration.Version).Perm (List.range' 1 ups.length)) :
    newMigrator fsys strict =
      Except.ok (Migrator.mk DefaultVersionTable fsys (sortByVersion ups) []) ∧
    (Migrator.mk DefaultVersionTable fsys (sortByVersion ups) []).Latest = ups.length ∧
    (∀ m : Migrator, m.MigrateUp = [] → m.Latest = 0) := by
  have hlen : (sortByVersion ups).length = ups.length := List.length_insertionSort _ ups
  have hmap : (sortByVersion ups).map Migration.Version = List.range' 1 ups.length :=
    sortByVersion_map_of_perm ups ups.length hperm
  have hseq : checkSeq 1 (sortByVersion ups) = true := by
    rw [checkSeq_iff_map, hlen]; exact hmap
  refine ⟨?_, ?_, ?_⟩
  · rw [newMigrator, buildFrom, hc]
    dsimp only
    rw [if_pos hseq]
    simp [List.isEmpty]
  · have := Latest_of_dense (Migrator.mk DefaultVersionTable fsys (sortByVersion ups) [])
      (by simpa [hlen] using hmap)
    simpa [hlen] using this
  · intro m hm
    simp [Migrator.Latest, hm]

/-- C5 witness: the spec's two-file scenario builds with `Latest = 2`. -/
theorem build_dense_latest_witness :
    classify true (globSql [("1_init.up.sql", "create table t(x int);"),
        ("2_seed.up.sql", "insert into t values (1);")]) =
      Except.ok ([⟨1, "1_init.up.sql"⟩, ⟨2, "2_seed.up.sql"⟩], []) ∧
    (([⟨1, "1_init.up.sql"⟩, (⟨2, "2_seed.up.sql"⟩ : Migration)].map Migration.Version).Perm
        (List.range' 1 2)) ∧
    newMigrator [("1_init.up.sql", "create table t(x int);"),
        ("2_seed.up.sql", "insert into t values (1);")] true =
      Except.ok (Migrator.mk DefaultVersionTable
        [("1_init.up.sql", "create table t(x int);"),
          ("2_seed.up.sql", "insert into t values (1);")]
        (sortByVersion [⟨1, "1_init.up.sql"⟩, ⟨2, "2_seed.up.sql"⟩]) []) ∧
    (Migrator.mk DefaultVersionTable
        [("1_init.up.sql", "create table t(x int);"),
          ("2_seed.up.sql", "insert into t values (1);")]
        (sortByVersion [⟨1, "1_init.up.sql"⟩, ⟨2, "2_seed.up.sql"⟩]) []).Latest = 2 := by
  refine ⟨rfl, by decide, ?_, ?_⟩
  · exact (build_dense_latest [("1_init.up.sql", "create table t(x int);"),
      ("2_seed.up.sql", "insert into t values (1);")] true
      [⟨1, "1_init.up.sql"⟩, ⟨2, "2_seed.up.sql"⟩] rfl (by decide)).1
  · exact (build_dense_latest [("1_init.up.sql", "create table t(x int);"),
      ("2_seed.up.sql", "insert into t values (1);")] true
      [⟨1, "1_init.up.sql"⟩, ⟨2, "2_seed.up.sql"⟩] rfl (by decide)).2.1

/-- C6: a successful build that contains any down script has equally
many down and up scripts, down versions dense from 1, and pairwise equal
base names once the direction tags are trimmed. -/
theorem build_updown_pairing
    (fsys : List (String × String)) (strict : Bool) (m : Migrator)
    (hb : newMigrator fsys strict = Except.ok m)
    (hdown : m.MigrateDown ≠ []) :
    m.MigrateUp.length = m.MigrateDown.length ∧
    m.MigrateDown.map Migration.Version = List.range' 1 m.MigrateDown.length ∧
    ∀ p ∈ m.MigrateUp.zip m.MigrateDown,
      trimSuffix p.1.Filename ".up.sql" = trimSuffix p.2.Filename ".down.sql" := by
  obtain ⟨ups, downs, _, _, _, _, _, hor⟩ := buildFrom_ok_inv fsys _ strict m hb
  rcases hor with ⟨_, hnil⟩ | ⟨_, hlen, hseqd, hpairs⟩
  · exact absurd hnil hdown
  · refine ⟨hlen, (checkSeq_iff_map _ 1).mp hseqd, ?_⟩
    intro p hp
    have h6 := List.all_eq_true.mp hpairs p hp
    simp only [beq_iff_eq] at h6
    exact h6

/-- C6 witness: a valid paired patch set. -/
theorem build_updown_pairing_witness :
    newMigrator [("1_init.up.sql", "U1"), ("1_init.down.sql", "D1")] true =
      Except.ok (Migrator.mk DefaultVersionTable
        [("1_init.up.sql", "U1"), ("1_init.down.sql", "D1")]
        [⟨1, "1_init.up.sql"⟩] [⟨1, "1_init.down.sql"⟩]) ∧
    (Migrator.mk DefaultVersionTable
        [("1_init.up.sql", "U1"), ("1_init.down.sql", "D1")]
        [⟨1, "1_init.up.sql"⟩] [⟨1, "1_init.down.sql"⟩]).MigrateDown ≠ [] ∧
    (Migrator.mk DefaultVersionTable
        [("1_init.up.sql", "U1"), ("1_init.down.sql", "D1")]
        [⟨1, "1_init.up.sql"⟩] [⟨1, "1_init.down.sql"⟩]).MigrateUp.length =
      (Migrator.mk DefaultVersionTable
        [("1_init.up.sql", "U1"), ("1_init.down.sql", "D1")]
        [⟨1, "1_init.up.sql"⟩] [⟨1, "1_init.down.sql"⟩]).MigrateDown.length ∧
    (Migrator.mk DefaultVersionTable
        [("1_init.up.sql", "U1"), ("1_init.down.sql", "D1")]
        [⟨1, "1_init.up.sql"⟩] [⟨1, "1_init.down.sql"⟩]).MigrateDown.map Migration.Version =
      List.range' 1 1 := by
  refine ⟨rfl, by decide, ?_, ?_⟩
  · exact (build_updown_pairing [("1_init.up.sql", "U1"), ("1_init.down.sql", "D1")] true
      (Migrator.mk DefaultVersionTable
        [("1_init.up.sql", "U1"), ("1_init.down.sql", "D1")]
        [⟨1, "1_init.up.sql"⟩] [⟨1, "1_init.down.sql"⟩]) rfl (by decide)).1
  · exact (build_updown_pairing [("1_init.up.sql", "U1"), ("1_init.down.sql", "D1")] true
      (Migrator.mk DefaultVersionTable
        [("1_init.up.sql", "U1"), ("1_init.down.sql", "D1")]
        [⟨1, "1_init.up.sql"⟩] [⟨1, "1_init.down.sql"⟩]) rfl (by decide)).2.1

/-! ### Strict versus loose construction -/

/-- Loose classification ignores non-matching filenames: it equals the
classification of the matching files alone. -/
theorem classify_loose_filter :
    ∀ files, classify false files =
      classify false (files.filter fun f => (parseFilename f).isSome) := by
  intro files
  induction files with
  | nil => rfl
  | cons f rest ih =>
    cases hp : parseFilename f with
    | none => simp [classify, hp, List.filter_cons, ih]
    | some p =>
      obtain ⟨v, up⟩ := p
      simp [classify, hp, List.filter_cons, ih]

/-- Strict classification fails at the first non-matching filename,
naming it, as soon as any non-matching filename is present. -/
theorem classify_strict_first_invalid :
    ∀ files : List String, (∃ f ∈ files, parseFilename f = none) →
      ∃ f', f' ∈ files ∧ parseFilename f' = none ∧
        classify true files = Except.error ("invalid filename: " ++ f') := by
  intro files
  induction files with
  | nil => rintro ⟨f, hf, _⟩; simp at hf
  | cons g rest ih =>
    rintro ⟨f, hf, hpf⟩
    cases hp : parseFilename g with
    | none => exact ⟨g, by simp, hp, by simp [classify, hp]⟩
    | some p =>
      obtain ⟨v, up⟩ := p
      have hfr : f ∈ rest := by
        rcases List.mem_cons.mp hf with rfl | hfr
        · rw [hpf] at hp; exact absurd hp (by simp)
        · exact hfr
      obtain ⟨f', h1, h2, h3⟩ := ih ⟨f, hfr, hpf⟩
      exact ⟨f', by simp [h1], h2, by simp [classify, hp, h3]⟩

/-- C7: a patch set containing a `*.sql` file that does not match the
naming pattern makes the strict build fail with a construction error
naming a non-matching file, while the loose build is the build of the
matching files alone. -/
theorem strict_loose_build
    (fsys : List (String × String)) (f : String)
    (hmem : f ∈ globSql fsys) (hbad : parseFilename f = none) :
    (∃ f', f' ∈ globSql fsys ∧ parseFilename f' = none ∧
      New fsys = Except.error ("invalid filename: " ++ f')) ∧
    NewLoose fsys =
      buildFrom fsys ((globSql fsys).filter fun n => (parseFilename n).isSome) false := by
  constructor
  · obtain ⟨f', h1, h2, h3⟩ := classify_strict_first_invalid (globSql fsys) ⟨f, hmem, hbad⟩
    exact ⟨f', h1, h2, by rw [New, newMigrator, buildFrom, h3]⟩
  · rw [NewLoose, newMigrator, buildFrom, buildFrom, classify_loose_filter]

/-- C7 witness: the spec scenario — `1_init.up.sql` plus `notes.sql`;
strict fails naming `notes.sql`, loose builds from the matching file. -/
theorem strict_loose_build_witness :
    "notes.sql" ∈ globSql [("1_init.up.sql", "U1"), ("notes.sql", "N")] ∧
    parseFilename "notes.sql" = none ∧
    New [("1_init.up.sql", "U1"), ("notes.sql", "N")] =
      Except.error ("invalid filename: " ++ "notes.sql") ∧
    NewLoose [("1_init.up.sql", "U1"), ("notes.sql", "N")] =
      buildFrom [("1_init.up.sql", "U1"), ("notes.sql", "N")]
        ((globSql [("1_init.up.sql", "U1"), ("notes.sql", "N")]).filter
          fun n => (parseFilename n).isSome) false := by
  refine ⟨by decide, rfl, rfl, ?_⟩
  exact (strict_loose_build [("1_init.up.sql", "U1"), ("notes.sql", "N")]
    "notes.sql" (by decide) rfl).2

/-! ### Upgrade walk lemmas -/

/-- If every entry's version is at most the current version, the walk
applies nothing and succeeds with the state unchanged. -/
theorem upLoop_skip_all (m : Migrator) (env : Env) :
    ∀ (l : List Migration) (current : Nat) (s : DBState),
      (∀ v ∈ l, v.Version ≤ current) → upLoop m env l current s = Res.ok () s := by
  intro l
  induction l with
  | nil => intro current s _; rfl
  | cons v rest ih =>
    intro current s h
    rw [upLoop, if_pos (h v (List.mem_cons_self v rest))]
    exact ih current s fun w hw => h w (List.mem_cons_of_mem v hw)

/-- Inversion of a successful `Apply`: the file was found, the table held
exactly the expected before-version, the database rejected nothing, and
the committed state has the after-version and the script appended. -/
theorem Apply_fst_ok_inv (m : Migrator) (env : Env) (b a : Nat) (f : String)
    (s : DBState) (u : Unit) (s1 : DBState)
    (h : (m.Apply env b a f s).fst = Res.ok u s1) :
    ∃ sql, lookupFile m.Filesystem f = some sql ∧
      s.table = some (some b) ∧
      s1 = DBState.mk (some (some a)) (s.executed ++ [sql]) := by
  cases hl : lookupFile m.Filesystem f with
  | none => simp [Migrator.Apply, hl] at h
  | some sql =>
    refine ⟨sql, rfl, ?_⟩
    rcases hts : s.table with _ | r
    · simp [Migrator.Apply, hl, hts] at h
    · rcases r with _ | cur
      · simp [Migrator.Apply, hl, hts] at h
      · by_cases hc : cur ≠ b
        · simp [Migrator.Apply, hl, hts, hc] at h
        · push_neg at hc
          subst hc
          by_cases hupd : env.execFails (updateVersionSQL m)
          · simp [Migrator.Apply, hl, hts, hupd] at h
          · by_cases hexec : env.execFails sql
            · simp [Migrator.Apply, hl, hts, hupd, hexec] at h
            · simp only [Migrator.Apply, hl, hts, ne_eq, not_true_eq_false, if_false,
                hupd, Bool.false_eq_true, ite_false, hexec] at h
              refine ⟨rfl, ?_⟩
              cases h
              rfl

/-- What a successful walk does to the state: the committed version is
the running maximum of the seen versions and exactly the pending scripts
are appended to the executed list. -/
theorem upLoop_ok_char (m : Migrator) (env : Env) :
    ∀ (l : List Migration) (current : Nat) (s s1 : DBState),
      s.table = some (some current) →
      upLoop m env l current s = Res.ok () s1 →
      s1.table = some (some (l.foldl (fun c v => max c v.Version) current)) ∧
      s1.executed = s.executed ++ pendingScripts m.Filesystem l current := by
  intro l
  induction l with
  | nil =>
    intro current s s1 ht h
    rw [upLoop] at h
    cases h
    exact ⟨ht, by simp [pendingScripts]⟩
  | cons v rest ih =>
    intro current s s1 ht h
    rw [upLoop] at h
    by_cases hv : v.Version ≤ current
    · rw [if_pos hv] at h
      obtain ⟨ha, hb⟩ := ih current s s1 ht h
      constructor
      · rw [ha]
        simp only [List.foldl_cons]
        rw [max_eq_left hv]
      · rw [hb, pendingScripts, if_pos hv]
    · rw [if_neg hv] at h
      cases happ : (m.Apply env current v.Version v.Filename s).fst with
      | err e s2 =>
        rw [happ] at h
        exact absurd h (by simp)
      | ok u s2 =>
        rw [happ] at h
        dsimp only at h
        obtain ⟨sql, hl, _, hs2⟩ := Apply_fst_ok_inv m env current v.Version v.Filename s u s2 happ
        subst hs2
        obtain ⟨ha, hb⟩ := ih v.Version _ s1 rfl h
        constructor
        · rw [ha]
          simp only [List.foldl_cons]
          rw [max_eq_right (Nat.le_of_lt (Nat.lt_of_not_le hv))]
        · rw [hb]
          rw [pendingScripts, if_neg hv, hl]
          simp

/-- Every pending script comes from an entry strictly beyond the current
version. -/
theorem pendingScripts_from_gt (fsys : List (String × String)) :
    ∀ (l : List Migration) (c : Nat) (b : String),
      b ∈ pendingScripts fsys l c →
      ∃ v, v ∈ l ∧ c < v.Version ∧ (lookupFile fsys v.Filename).getD "" = b := by
  intro l
  induction l with
  | nil => intro c b hb; simp [pendingScripts] at hb
  | cons v rest ih =>
    intro c b hb
    rw [pendingScripts] at hb
    by_cases hv : v.Version ≤ c
    · rw [if_pos hv] at hb
      obtain ⟨w, h1, h2, h3⟩ := ih c b hb
      exact ⟨w, List.mem_cons_of_mem v h1, h2, h3⟩
    · rw [if_neg hv] at hb
      rcases List.mem_cons.mp hb with rfl | hb'
      · exact ⟨v, List.mem_cons_self v rest, Nat.lt_of_not_le hv, rfl⟩
      · obtain ⟨w, h1, h2, h3⟩ := ih v.Version b hb'
        exact ⟨w, List.mem_cons_of_mem v h1,
          Nat.lt_trans (Nat.lt_of_not_le hv) h2, h3⟩

/-- Folding the running maximum over a dense version column `k..k+n-1`. -/
theorem foldl_max_of_range (l : List Migration) :
    ∀ (k c : Nat), l.map Migration.Version = List.range' k l.length →
      l.foldl (fun cc v => max cc v.Version) c =
        if l.length = 0 then c else max c (k + l.length - 1) := by
  induction l with
  | nil => intro k c _; simp
  | cons v rest ih =>
    intro k c h
    rw [List.map_cons, List.length_cons, List.range'_succ] at h
    injection h with h1 h2
    simp only [List.foldl_cons, List.length_cons]
    rw [ih (k + 1) (max c v.Version) h2]
    by_cases hr : rest.length = 0
    · simp [hr, h1]
    · rw [if_neg hr, if_neg (by omega : ¬ rest.length + 1 = 0), h1]
      have h3 : k + 1 + rest.length - 1 = k + rest.length := by omega
      have h4 : k + (rest.length + 1) - 1 = k + rest.length := by omega
      rw [h3, h4, max_assoc]
      congr 1
      exact max_eq_right (by omega)

/-- Versions taken from a dense column are bounded by its end. -/
theorem version_lt_of_range (l : List Migration) (k : Nat)
    (h : l.map Migration.Version = List.range' k l.length) :
    ∀ v ∈ l, v.Version < k + l.length := by
  intro v hv
  have hm : v.Version ∈ l.map Migration.Version := List.mem_map_of_mem _ hv
  rw [h] at hm
  exact (List.mem_range'_1.mp hm).2

/-- A `Current` call on a database whose version table holds a row is a
pure read: it returns the row's value and leaves the state unchanged. -/
theorem current_reads_row (m : Migrator) (env : Env) (s : DBState) (v : Nat)
    (hcr : env.execFails (createTableSQL m) = false)
    (htab : s.table = some (some v)) :
    m.Current env s = Res.ok v s := by
  obtain ⟨t, ex⟩ := s
  simp only [DBState.table] at htab
  subst htab
  simp [Migrator.Current, initializeSchemaVersion, hcr]

/-- Inversion of a successful `Current`: the table-creation statement was
accepted and the returned state's version row holds the returned value. -/
theorem Current_ok_inv (m : Migrator) (env : Env) (s : DBState) (k : Nat) (s1 : DBState)
    (h : m.Current env s = Res.ok k s1) :
    env.execFails (createTableSQL m) = false ∧ s1.table = some (some k) := by
  by_cases hcr : env.execFails (createTableSQL m)
  · exfalso
    simp [Migrator.Current, initializeSchemaVersion, hcr] at h
  · refine ⟨by simpa using hcr, ?_⟩
    obtain ⟨t, ex⟩ := s
    have hfresh : ∀ ht : (⟨t, ex⟩ : DBState).table.getD none = none,
        (⟨t, ex⟩ : DBState).table = t → s1.table = some (some k) := by
      intro hget _
      by_cases hins : env.execFails (insertVersionSQL m)
      · exfalso
        simp [Migrator.Current, initializeSchemaVersion, hcr, hget, hins] at h
      · have hc2 : m.Current env ⟨t, ex⟩ = Res.ok 0 ⟨some (some 0), ex⟩ := by
          simp [Migrator.Current, initializeSchemaVersion, hcr, hget, hins]
        rw [hc2] at h
        injection h with hk hs
        subst hs
        simp [← hk]
    rcases t with _ | r
    · exact hfresh rfl rfl
    · rcases r with _ | v
      · exact hfresh rfl rfl
      · have hc2 : m.Current env ⟨some (some v), ex⟩ =
            Res.ok v ⟨some (some v), ex⟩ := by
          simp [Migrator.Current, initializeSchemaVersion, hcr]
        rw [hc2] at h
        injection h with hk hs
        subst hs
        simp [← hk]

/-! ### Claim C2 -/

/-- C2 (amended): after a successful `Up`, another `Up` against the same
database and catalog is a successful no-op (so zero scripts run), the
persisted version has reached `Latest` whenever the starting version was
at most `Latest` (in general the maximum of the two), exactly the pending
scripts were appended — and every pending script belongs to an entry
strictly beyond the starting version, so a run resumed from committed
step `k` never re-executes step `k` or earlier. -/
theorem up_idempotent_resumable
    (fsys : List (String × String)) (strict : Bool) (m : Migrator) (env : Env)
    (s s' s1 : DBState) (k : Nat)
    (hb : newMigrator fsys strict = Except.ok m)
    (hcur : m.Current env s = Res.ok k s')
    (hup : m.Up env s = Res.ok () s1) :
    (k ≤ m.Latest → m.Current env s1 = Res.ok m.Latest s1) ∧
    m.Up env s1 = Res.ok () s1 ∧
    s1.executed = s'.executed ++ pendingScripts m.Filesystem m.MigrateUp k ∧
    (∀ b ∈ pendingScripts m.Filesystem m.MigrateUp k,
      ∃ v, v ∈ m.MigrateUp ∧ k < v.Version ∧
        (lookupFile m.Filesystem v.Filename).getD "" = b) := by
  obtain ⟨hcr, htab'⟩ := Current_ok_inv m env s k s' hcur
  rw [Migrator.Up, hcur] at hup
  dsimp only at hup
  obtain ⟨ups, downs, _, _, _, _, hseq, _⟩ := buildFrom_ok_inv fsys _ strict m hb
  have hmap := (checkSeq_iff_map m.MigrateUp 1).mp hseq
  have hlatest : m.Latest = m.MigrateUp.length := Latest_of_dense m hmap
  obtain ⟨hK, hE⟩ := upLoop_ok_char m env m.MigrateUp k s' s1 htab' hup
  have hfold := foldl_max_of_range m.MigrateUp 1 k hmap
  have hKval : m.MigrateUp.foldl (fun c v => max c v.Version) k =
      if m.MigrateUp.length = 0 then k else max k m.MigrateUp.length := by
    rw [hfold]
    by_cases h0 : m.MigrateUp.length = 0
    · simp [h0]
    · rw [if_neg h0, if_neg h0]
      congr 1
      omega
  have hvlt := version_lt_of_range m.MigrateUp 1 hmap
  have hle : ∀ v ∈ m.MigrateUp,
      v.Version ≤ m.MigrateUp.foldl (fun c v => max c v.Version) k := by
    intro v hv
    rw [hKval]
    have hlt := hvlt v hv
    by_cases h0 : m.MigrateUp.length = 0
    · rw [List.eq_nil_of_length_eq_zero h0] at hv
      simp at hv
    · rw [if_neg h0]
      exact Nat.le_trans (by omega) (Nat.le_max_right k m.MigrateUp.length)
  refine ⟨?_, ?_, hE, pendingScripts_from_gt m.Filesystem m.MigrateUp k⟩
  · intro hkle
    have hKL : m.MigrateUp.foldl (fun c v => max c v.Version) k = m.Latest := by
      rw [hKval, hlatest]
      rw [hlatest] at hkle
      by_cases h0 : m.MigrateUp.length = 0
      · rw [if_pos h0]; omega
      · rw [if_neg h0]; exact max_eq_right hkle
    have hrow := current_reads_row m env s1 _ hcr hK
    rw [hKL] at hrow
    exact hrow
  · rw [Migrator.Up, current_reads_row m env s1 _ hcr hK]
    dsimp only
    exact upLoop_skip_all m env m.MigrateUp _ s1 hle

/-- C2 counterexample: a database already at version 5 with a catalog
whose latest version is 1 — `Up` succeeds executing nothing, yet
`Current` afterwards answers 5, not `Latest`. -/
theorem up_latest_counterexample :
    New fsA = Except.ok mA ∧
    mA.Up envNone ⟨some (some 5), []⟩ = Res.ok () ⟨some (some 5), []⟩ ∧
    mA.Current envNone ⟨some (some 5), []⟩ = Res.ok 5 ⟨some (some 5), []⟩ ∧
    mA.Latest = 1 ∧ (5 : Nat) ≠ 1 := by
  exact ⟨rfl, by decide, by decide, rfl, by decide⟩

/-- C2 witness: a concrete full run from a fresh database reaches
`Latest`, and the second run is a no-op executing nothing. -/
theorem up_idempotent_resumable_witness :
    newMigrator fsA true = Except.ok mA ∧
    mA.Current envNone dbFresh = Res.ok 0 ⟨some (some 0), []⟩ ∧
    mA.Up envNone dbFresh = Res.ok () ⟨some (some 1), ["S1"]⟩ ∧
    mA.Current envNone ⟨some (some 1), ["S1"]⟩ =
      Res.ok mA.Latest ⟨some (some 1), ["S1"]⟩ ∧
    mA.Up envNone ⟨some (some 1), ["S1"]⟩ = Res.ok () ⟨some (some 1), ["S1"]⟩ ∧
    (⟨some (some 1), ["S1"]⟩ : DBState).executed =
      (⟨some (some 0), []⟩ : DBState).executed ++
        pendingScripts mA.Filesystem mA.MigrateUp 0 := by
  have h := up_idempotent_resumable fsA true mA envNone dbFresh
    ⟨some (some 0), []⟩ ⟨some (some 1), ["S1"]⟩ 0 rfl (by decide) (by decide)
  exact ⟨rfl, by decide, by decide, h.1 (by decide), h.2.1, h.2.2.1⟩

end PgMigrate
